import Mathlib

/-!
Shallow embedding of the `tools/durand_kerner` package
(`durand_kerner.py`, `gaussian_filter.py`).

The Python code performs arbitrary-precision floating arithmetic through
mpmath.  The embedding works with exact rationals: real scalars become `ℚ`
and complex values become `Cq` (a pair of rationals).  Operations that can
raise `ZeroDivisionError` in Python (mpf/mpc division by an exact zero) are
modelled with checked divisions returning `Except DKError`, and the two
`ValueError` raises of `durand_kerner` become the `invalidDegree` and
`zeroLeading` error values.  The transcendental functions used by the code
(`mpmath.cos`, `mpmath.sin`, `mpmath.exp`, `mpmath.pi`) are abstracted as an
explicit context `Mp` of rational-valued operations, mirroring the mpmath
module surface the code calls into; all theorems hold for every such
context.
-/

/-- Failure kinds of the embedded code.  `invalidDegree` and `zeroLeading`
are the two `ValueError` raises in `durand_kerner` (the "InvalidPolynomial"
errors of the specification); `divisionByZero` models mpmath's
`ZeroDivisionError`. -/
inductive DKError where
  | invalidDegree
  | zeroLeading
  | divisionByZero
deriving DecidableEq, Repr

/-- Complex number with rational components, the exact-arithmetic stand-in
for `mpmath.mpc`. -/
structure Cq where
  re : ℚ
  im : ℚ
deriving DecidableEq, Repr

namespace Cq

@[ext] theorem ext {x y : Cq} (hre : x.re = y.re) (him : x.im = y.im) : x = y := by
  cases x; cases y; simp_all

/-- Embed a rational (an `mpmath.mpf`) as a complex value, `mpmath.mpc(q, 0)`. -/
def ofQ (q : ℚ) : Cq := ⟨q, 0⟩

instance : Zero Cq := ⟨⟨0, 0⟩⟩
instance : One Cq := ⟨⟨1, 0⟩⟩
instance : Add Cq := ⟨fun x y => ⟨x.re + y.re, x.im + y.im⟩⟩
instance : Neg Cq := ⟨fun x => ⟨-x.re, -x.im⟩⟩
instance : Sub Cq := ⟨fun x y => ⟨x.re - y.re, x.im - y.im⟩⟩
instance : Mul Cq := ⟨fun x y => ⟨x.re * y.re - x.im * y.im, x.re * y.im + x.im * y.re⟩⟩

@[simp] theorem zero_re : (0 : Cq).re = 0 := rfl
@[simp] theorem zero_im : (0 : Cq).im = 0 := rfl
@[simp] theorem one_re : (1 : Cq).re = 1 := rfl
@[simp] theorem one_im : (1 : Cq).im = 0 := rfl
@[simp] theorem add_re (x y : Cq) : (x + y).re = x.re + y.re := rfl
@[simp] theorem add_im (x y : Cq) : (x + y).im = x.im + y.im := rfl
@[simp] theorem neg_re (x : Cq) : (-x).re = -x.re := rfl
@[simp] theorem neg_im (x : Cq) : (-x).im = -x.im := rfl
@[simp] theorem sub_re (x y : Cq) : (x - y).re = x.re - y.re := rfl
@[simp] theorem sub_im (x y : Cq) : (x - y).im = x.im - y.im := rfl
@[simp] theorem mul_re (x y : Cq) : (x * y).re = x.re * y.re - x.im * y.im := rfl
@[simp] theorem mul_im (x y : Cq) : (x * y).im = x.re * y.im + x.im * y.re := rfl
@[simp] theorem ofQ_re (q : ℚ) : (ofQ q).re = q := rfl
@[simp] theorem ofQ_im (q : ℚ) : (ofQ q).im = 0 := rfl

instance : CommRing Cq where
  nsmul := nsmulRec
  zsmul := zsmulRec
  add_assoc x y z := by ext <;> simp <;> ring
  zero_add x := by ext <;> simp
  add_zero x := by ext <;> simp
  add_comm x y := by ext <;> simp <;> ring
  mul_assoc x y z := by ext <;> simp <;> ring
  one_mul x := by ext <;> simp
  mul_one x := by ext <;> simp
  left_distrib x y z := by ext <;> simp <;> ring
  right_distrib x y z := by ext <;> simp <;> ring
  mul_comm x y := by ext <;> simp <;> ring
  neg_add_cancel x := by ext <;> simp
  sub_eq_add_neg x y := by ext <;> simp <;> ring
  zero_mul x := by ext <;> simp
  mul_zero x := by ext <;> simp

theorem mk_add (a b c d : ℚ) : (⟨a, b⟩ + ⟨c, d⟩ : Cq) = ⟨a + c, b + d⟩ := rfl
theorem mk_sub (a b c d : ℚ) : (⟨a, b⟩ - ⟨c, d⟩ : Cq) = ⟨a - c, b - d⟩ := rfl
theorem mk_mul (a b c d : ℚ) : (⟨a, b⟩ * ⟨c, d⟩ : Cq) = ⟨a * c - b * d, a * d + b * c⟩ := rfl
theorem mk_neg (a b : ℚ) : (-(⟨a, b⟩ : Cq)) = ⟨-a, -b⟩ := rfl
theorem zero_def : (0 : Cq) = ⟨0, 0⟩ := rfl
theorem one_def : (1 : Cq) = ⟨1, 0⟩ := rfl

/-- Squared magnitude `re² + im²`; `|z| ≤ t` and `|z| > t` comparisons with a
non-negative rational `t` are expressed exactly through it. -/
def normSq (x : Cq) : ℚ := x.re * x.re + x.im * x.im

theorem normSq_eq_zero {x : Cq} : normSq x = 0 ↔ x = 0 := by
  constructor
  · intro h
    have h' : x.re * x.re + x.im * x.im = 0 := h
    have hre : x.re * x.re = 0 := by
      linarith [mul_self_nonneg x.re, mul_self_nonneg x.im]
    have him : x.im * x.im = 0 := by
      linarith [mul_self_nonneg x.re, mul_self_nonneg x.im]
    ext
    · exact mul_self_eq_zero.mp hre
    · exact mul_self_eq_zero.mp him
  · intro h; subst h; simp [normSq]

instance : Inv Cq := ⟨fun x => ⟨x.re / normSq x, -x.im / normSq x⟩⟩
instance : Div Cq := ⟨fun x y => x * y⁻¹⟩

theorem inv_def (x : Cq) : x⁻¹ = ⟨x.re / normSq x, -x.im / normSq x⟩ := rfl
theorem div_def (x y : Cq) : x / y = x * y⁻¹ := rfl

theorem mul_inv_cancel {x : Cq} (h : x ≠ 0) : x * x⁻¹ = 1 := by
  have hn : normSq x ≠ 0 := fun hz => h (normSq_eq_zero.mp hz)
  have hN : x.re * x.re + x.im * x.im = normSq x := rfl
  ext
  · show x.re * (x.re / normSq x) - x.im * (-x.im / normSq x) = 1
    field_simp
    linarith [hN]
  · show x.re * (-x.im / normSq x) + x.im * (x.re / normSq x) = 0
    field_simp
    ring

/-- Exact model of mpmath complex division: the true field quotient for a
non-zero denominator, `ZeroDivisionError` for a denominator equal to the
complex zero (both components zero). -/
def div? (x y : Cq) : Except DKError Cq :=
  if y.re = 0 ∧ y.im = 0 then .error .divisionByZero else .ok (x / y)

theorem eq_zero_iff {y : Cq} : y = 0 ↔ y.re = 0 ∧ y.im = 0 := by
  constructor
  · intro h; subst h; exact ⟨rfl, rfl⟩
  · intro h; ext <;> simp [h.1, h.2]

theorem div?_eq_ok {x y : Cq} (h : y ≠ 0) : div? x y = .ok (x / y) := by
  have : ¬(y.re = 0 ∧ y.im = 0) := fun hc => h (eq_zero_iff.mpr hc)
  simp [div?, this]

theorem div?_ne_zero {x y q : Cq} (h : div? x y = .ok q) : y ≠ 0 := by
  intro hy
  subst hy
  simp [div?] at h

theorem div?_ok_val {x y q : Cq} (h : div? x y = .ok q) : q = x / y := by
  by_cases hy : y.re = 0 ∧ y.im = 0
  · simp [div?, hy] at h
  · simp [div?, hy] at h; exact h.symm

end Cq

/-- Exact model of mpmath real division: `ZeroDivisionError` on an exact
zero divisor, the true quotient otherwise. -/
def qdiv? (a b : ℚ) : Except DKError ℚ :=
  if b = 0 then .error .divisionByZero else .ok (a / b)

instance {ε α : Type} [DecidableEq ε] [DecidableEq α] : DecidableEq (Except ε α) :=
  fun a b =>
    match a, b with
    | .ok x, .ok y =>
      decidable_of_iff (x = y) ⟨fun h => by rw [h], fun h => by injection h⟩
    | .error e, .error f =>
      decidable_of_iff (e = f) ⟨fun h => by rw [h], fun h => by injection h⟩
    | .ok _, .error _ => .isFalse fun h => Except.noConfusion h
    | .error _, .ok _ => .isFalse fun h => Except.noConfusion h

/-- The mpmath operations the code calls that have no exact rational value
(`mpmath.cos`, `mpmath.sin`, `mpmath.exp`, `mpmath.pi`).  The embedding is
parametric in this context; every theorem holds for all instantiations. -/
structure Mp where
  cos : ℚ → ℚ
  sin : ℚ → ℚ
  exp : ℚ → ℚ
  pi : ℚ

/-- `durand_kerner.py` line 39: the default convergence tolerance
`mpmath.mpf(10) ** (-dps + 5)`. -/
def defaultTolerance (dps : ℕ) : ℚ := (10 : ℚ) ^ (-(dps : ℤ) + 5)

/-- Exact rendering of the comparison `abs(z) > t` on an `mpmath.mpc` value
`z` and real `t` (`durand_kerner.py` lines 113-114): for `t < 0` it always
holds since `abs(z) ≥ 0`, and for `t ≥ 0` it is equivalent to
`normSq z > t²`. -/
def absGt (z : Cq) (t : ℚ) : Bool :=
  if t < 0 then true else decide (Cq.normSq z > t * t)

/-- `durand_kerner.py` lines 78-88, `evaluate_polynomial`: ascending-order
accumulation `result += x_power * coeff; x_power *= x` over the whole
coefficient list. -/
def evaluate_polynomial (coeffs : List ℚ) (x : Cq) : Cq :=
  (coeffs.foldl (fun acc c => (acc.1 + acc.2 * Cq.ofQ c, acc.2 * x)) ((0 : Cq), (1 : Cq))).1

/-- `durand_kerner.py` lines 101-105: `denominator = mpc(coeffs[n], 0)` then
`for j in range(n): if i != j: denominator *= x_i - roots[j]`. -/
def dkDenominator (coeffs : List ℚ) (n : ℕ) (roots : List Cq) (i : ℕ) : Cq :=
  (List.range n).foldl
    (fun d j => if i ≠ j then d * (roots.getD i 0 - roots.getD j 0) else d)
    (Cq.ofQ (coeffs.getD n 0))

/-- The correction term `P(x_i) / denominator` for root index `i`
(`durand_kerner.py` lines 98-108); fails with `divisionByZero` exactly when
the denominator is the exact complex zero. -/
def dkCorrection (coeffs : List ℚ) (n : ℕ) (roots : List Cq) (i : ℕ) : Except DKError Cq :=
  Cq.div? (evaluate_polynomial coeffs (roots.getD i 0)) (dkDenominator coeffs n roots i)

/-- Inner loop of one sweep (`durand_kerner.py` lines 95-115), processing
indices `i, i+1, ..., i+k-1` against the start-of-sweep list `roots`:
returns the corresponding segment of `new_roots` together with the
`converged` flag restricted to those indices (the flag is the conjunction
over all indices of `abs(correction) ≤ tolerance`, in any association). -/
def sweepAux (coeffs : List ℚ) (n : ℕ) (tol : ℚ) (roots : List Cq) :
    ℕ → ℕ → Except DKError (List Cq × Bool)
  | 0, _ => .ok ([], true)
  | k + 1, i =>
    match dkCorrection coeffs n roots i with
    | .error e => .error e
    | .ok c =>
      match sweepAux coeffs n tol roots k (i + 1) with
      | .error e => .error e
      | .ok rest => .ok ((roots.getD i 0 - c) :: rest.1, (!absGt c tol) && rest.2)

/-- One synchronous sweep over all `n` root estimates
(`durand_kerner.py` lines 92-115): the full `new_roots` list and the
`converged` flag. -/
def sweep (coeffs : List ℚ) (n : ℕ) (tol : ℚ) (roots : List Cq) :
    Except DKError (List Cq × Bool) :=
  sweepAux coeffs n tol roots n 0

/-- The iteration loop of `durand_kerner.py` lines 91-120: run up to `fuel`
sweeps, replacing the estimates after each sweep and stopping early as soon
as a sweep reports convergence; when the budget is exhausted the current
estimates are returned normally. -/
def iterateDK (coeffs : List ℚ) (n : ℕ) (tol : ℚ) : ℕ → List Cq → Except DKError (List Cq)
  | 0, roots => .ok roots
  | fuel + 1, roots =>
    match sweep coeffs n tol roots with
    | .error e => .error e
    | .ok r => if r.2 then .ok r.1 else iterateDK coeffs n tol fuel r.1

/-- `durand_kerner.py` line 67: `max_coeff = max(abs(c) for c in coeffs)`.
The Python `max` runs over a non-empty list of non-negative values, so the
fold from `0` agrees with it on every reachable call. -/
def maxAbsCoeff (coeffs : List ℚ) : ℚ := (coeffs.map (|·|)).foldl max 0

/-- `durand_kerner.py` line 68:
`initial_radius = max(mpf(1), max_coeff / abs(coeffs[0]))`.  Note the code
divides by the magnitude of `coeffs[0]` — the FIRST (constant-term)
coefficient of the ascending-order list — and raises `ZeroDivisionError`
when that coefficient is exactly zero. -/
def initialRadius (coeffs : List ℚ) : Except DKError ℚ :=
  match qdiv? (maxAbsCoeff coeffs) |coeffs.getD 0 0| with
  | .error e => .error e
  | .ok q => .ok (max 1 q)

/-- `durand_kerner.py` lines 70-75: the `n` initial estimates
`r * exp(j * 2πk/n)`, written out through `cos` and `sin` exactly as the
code does. -/
def initialRoots (mp : Mp) (r : ℚ) (n : ℕ) : List Cq :=
  (List.range n).map fun (k : ℕ) =>
    let angle := (2 * mp.pi * (k : ℚ)) / (n : ℚ)
    ⟨r * mp.cos angle, r * mp.sin angle⟩

/-- `durand_kerner.py` lines 16-122, the full `durand_kerner` function.
`tolerance = none` models the Python default `None` (replaced by
`defaultTolerance dps`); the `mpmath.mp.dps = dps` precision assignment has
no counterpart in exact arithmetic.  The `n == 0` branch of the source
(line 56) is kept even though the `n <= 0` guard (line 48) makes it
unreachable. -/
def durand_kerner (mp : Mp) (coefficients : List ℚ) (max_iterations : ℕ)
    (tolerance : Option ℚ) (dps : ℕ) : Except DKError (List Cq) :=
  let tol := tolerance.getD (defaultTolerance dps)
  let effective_max_iterations := max max_iterations (dps * 20)
  let coeffs := coefficients
  let n := coeffs.length - 1
  if coeffs.length ≤ 1 then .error .invalidDegree
  else if |coeffs.getD n 0| < tol then .error .zeroLeading
  else if coeffs.length = 1 then .ok []
  else if n = 1 then
    match qdiv? (-(coeffs.getD 0 0)) (coeffs.getD 1 0) with
    | .error e => .error e
    | .ok root => .ok [⟨root, 0⟩]
  else
    match initialRadius coeffs with
    | .error e => .error e
    | .ok r => iterateDK coeffs n tol effective_max_iterations (initialRoots mp r n)

/-- The `window_function` argument of
`calculate_gaussian_impulse_response` (`'none' | 'hann'`). -/
inductive WindowKind where
  | noWindow
  | hann
deriving DecidableEq, Repr

/-- Error-propagating map, the effect of the Python list-building loops whose
body can raise `ZeroDivisionError`: stop at the first failing element. -/
def mapExcept {α β : Type} (f : α → Except DKError β) : List α → Except DKError (List β)
  | [] => .ok []
  | a :: as =>
    match f a with
    | .error e => .error e
    | .ok b =>
      match mapExcept f as with
      | .error e => .error e
      | .ok bs => .ok (b :: bs)

/-- `gaussian_filter.py` lines 15-63, `calculate_gaussian_impulse_response`.
The tap count is clamped to `N = min(max(3, taps), 31)`; the raw response is
`exp(-(n²)/(2σ²))` for `n = -N//2 .. N//2`; a Hann window of length `N+1`
is optionally applied; finally the list is normalized by its sum.  The two
divisions performed on mpmath reals (`-(n²)/(2σ²)` and `h / sum`) raise
`ZeroDivisionError` on an exact zero divisor, modelled by `qdiv?`. -/
def calculate_gaussian_impulse_response (mp : Mp) (sigma : ℚ) (taps : ℤ)
    (window_function : WindowKind) (dps : ℕ) : Except DKError (List ℚ) :=
  let _ := dps
  let N : ℤ := min (max 3 taps) 31
  let half_n : ℤ := N / 2
  let idx : List ℤ := (List.range (2 * half_n.toNat + 1)).map (fun (k : ℕ) => (k : ℤ) - half_n)
  match mapExcept (fun (n : ℤ) =>
      match qdiv? (-((n : ℚ) * (n : ℚ))) (2 * sigma * sigma) with
      | .error e => .error e
      | .ok e => .ok (mp.exp e)) idx with
  | .error e => .error e
  | .ok base =>
    let windowed :=
      match window_function with
      | .noWindow => base
      | .hann =>
        (idx.zip base).map fun (p : ℤ × ℚ) =>
          let normalized_index : ℚ := ((p.1 : ℚ) + (half_n : ℚ) + 1) / ((N : ℚ) + 1)
          let window_value : ℚ := (1 / 2) * (1 - mp.cos (2 * mp.pi * normalized_index))
          p.2 * window_value
    let sum_val := windowed.foldl (· + ·) 0
    mapExcept (fun h => qdiv? h sum_val) windowed

/-- `gaussian_filter.py` line 103: the coefficient-trimming tolerance
`mpmath.mpf(10) ** (-dps + 4)`. -/
def gaussian_filter_zero_tolerance (dps : ℕ) : ℚ := (10 : ℚ) ^ (-(dps : ℤ) + 4)

/-- `gaussian_filter.py` line 132: the root-classification tolerance
`zero_tolerance = mpmath.mpf(10) ** (-dps + 5)`. -/
def zeroClassifyTolerance (dps : ℕ) : ℚ := (10 : ℚ) ^ (-(dps : ℤ) + 5)

/-- `gaussian_filter.py` lines 106-110: drop leading (first-position)
coefficients while the list has length > 1 and the first magnitude is
`≤ tol`. -/
def trimLeading (tol : ℚ) : List ℚ → List ℚ
  | [] => []
  | [c] => [c]
  | c :: c2 :: rest =>
    if |c| ≤ tol then trimLeading tol (c2 :: rest) else c :: c2 :: rest

/-- `gaussian_filter.py` lines 114-119: drop trailing (constant-term)
coefficients while the list has length > 1 and the last magnitude is
`≤ tol`.  (The source also counts the removals in
`removed_constant_terms_count`, a local that never influences the returned
value, so the count is not modelled.) -/
def trimTrailing (tol : ℚ) (l : List ℚ) : List ℚ :=
  if 1 < l.length ∧ |l.getLastD 0| ≤ tol then trimTrailing tol l.dropLast else l
termination_by l.length
decreasing_by
  rename_i h
  simp only [List.length_dropLast]
  omega

/-- `gaussian_filter.py` line 135, the root-classification predicate of the
filtering loop: `abs(root.imag) < zero_tolerance or root.imag > zero_tolerance`. -/
def keepRoot (tol : ℚ) (root : Cq) : Bool :=
  decide (|root.im| < tol) || decide (root.im > tol)

/-- `gaussian_filter.py` lines 91-144, everything `calculate_gaussian_zeros`
does after the impulse response has been computed: trim both ends of the
coefficient list, guard on the trimmed length and leading magnitude, call
`durand_kerner` with its default `max_iterations` and `tolerance`, filter
the roots, and convert any iterator failure into an empty list (the
`except` clause, which also prints a warning to stderr — I/O without
influence on the returned value). -/
def gaussianZerosFromImpulse (mp : Mp) (dps : ℕ) (impulse_response : List ℚ) : List Cq :=
  let coefficients := impulse_response
  let tol := gaussian_filter_zero_tolerance dps
  if 1 < coefficients.length then
    let trimmed_coefficients := trimTrailing tol (trimLeading tol coefficients)
    if 1 < trimmed_coefficients.length ∧ tol < |trimmed_coefficients.getD 0 0| then
      match durand_kerner mp trimmed_coefficients 1000 none dps with
      | .ok roots => roots.filter (keepRoot (zeroClassifyTolerance dps))
      | .error _ => []
    else []
  else []

/-- `gaussian_filter.py` lines 66-144, `calculate_gaussian_zeros`: compute
the Hann-windowed impulse response (any failure there propagates — that
call sits outside the `try` block) and post-process it. -/
def calculate_gaussian_zeros (mp : Mp) (taps : ℤ) (sigma : ℚ) (dps : ℕ) :
    Except DKError (List Cq) :=
  match calculate_gaussian_impulse_response mp sigma taps .hann dps with
  | .error e => .error e
  | .ok impulse_response => .ok (gaussianZerosFromImpulse mp dps impulse_response)

/-! ### Structural lemmas about the embedded operations -/

theorem evaluate_polynomial_foldl (x : Cq) :
    ∀ (cs : List ℚ) (a p : Cq),
      (cs.foldl (fun acc c => (acc.1 + acc.2 * Cq.ofQ c, acc.2 * x)) (a, p)).1 =
        a + ∑ j ∈ Finset.range cs.length, p * x ^ j * Cq.ofQ (cs.getD j 0) := by
  intro cs
  induction cs with
  | nil => intro a p; simp
  | cons c cs ih =>
    intro a p
    have h := ih (a + p * Cq.ofQ c) (p * x)
    simp only [List.foldl_cons, h, List.length_cons]
    rw [Finset.sum_range_succ']
    simp only [List.getD_cons_succ, List.getD_cons_zero, pow_zero, pow_succ]
    have hS : (∑ j ∈ Finset.range cs.length, p * x * x ^ j * Cq.ofQ (cs.getD j 0)) =
        ∑ j ∈ Finset.range cs.length, p * (x ^ j * x) * Cq.ofQ (cs.getD j 0) := by
      refine Finset.sum_congr rfl ?_
      intro j _
      ring
    rw [hS]
    ring

/-- `evaluate_polynomial` computes the textbook sum `Σ coeffs[j] · x^j`. -/
theorem evaluate_polynomial_eq_sum (coeffs : List ℚ) (x : Cq) :
    evaluate_polynomial coeffs x =
      ∑ j ∈ Finset.range coeffs.length, Cq.ofQ (coeffs.getD j 0) * x ^ j := by
  unfold evaluate_polynomial
  rw [evaluate_polynomial_foldl x coeffs 0 1]
  rw [zero_add]
  apply Finset.sum_congr rfl
  intro j _
  ring

theorem dkDenominator_foldl (g : ℕ → Cq) (i : ℕ) :
    ∀ (n : ℕ) (init : Cq),
      (List.range n).foldl (fun d j => if i ≠ j then d * g j else d) init =
        init * ∏ j ∈ (Finset.range n).erase i, g j := by
  intro n
  induction n with
  | zero => intro init; simp
  | succ n ih =>
    intro init
    rw [List.range_succ, List.foldl_append, ih]
    simp only [List.foldl_cons, List.foldl_nil]
    by_cases hin : i = n
    · subst hin
      simp only [ne_eq, not_true_eq_false, if_false, ite_self]
      rw [Finset.range_succ, Finset.erase_insert (Finset.not_mem_range_self)]
      simp
    · have hne : i ≠ n := hin
      simp only [ne_eq, hne, not_false_eq_true, if_true]
      rw [Finset.range_succ, Finset.erase_insert_of_ne (fun h => hne h.symm)]
      rw [Finset.prod_insert (fun hmem => Finset.not_mem_range_self (Finset.mem_of_mem_erase hmem))]
      ring

/-- `dkDenominator` computes `leading · Π_{j ≠ i, j < n} (x_i − x_j)`. -/
theorem dkDenominator_eq_prod (coeffs : List ℚ) (n : ℕ) (roots : List Cq) (i : ℕ) :
    dkDenominator coeffs n roots i =
      Cq.ofQ (coeffs.getD n 0) *
        ∏ j ∈ (Finset.range n).erase i, (roots.getD i 0 - roots.getD j 0) := by
  unfold dkDenominator
  exact dkDenominator_foldl (fun j => roots.getD i 0 - roots.getD j 0) i n _

theorem dkCorrection_error {coeffs : List ℚ} {n : ℕ} {roots : List Cq} {i : ℕ} {e : DKError}
    (h : dkCorrection coeffs n roots i = .error e) : e = .divisionByZero := by
  unfold dkCorrection Cq.div? at h
  by_cases hc : (dkDenominator coeffs n roots i).re = 0 ∧ (dkDenominator coeffs n roots i).im = 0
  · simp [hc] at h; exact h.symm
  · simp [hc] at h

theorem qdiv?_error {a b : ℚ} {e : DKError} (h : qdiv? a b = .error e) : e = .divisionByZero := by
  unfold qdiv? at h
  by_cases hb : b = 0
  · simp [hb] at h; exact h.symm
  · simp [hb] at h

/-- Full characterization of a successful `sweepAux` run over indices
`i, ..., i+k-1`: the produced segment's length, each produced entry as
"start-of-sweep estimate minus that index's correction", and the converged
flag as the conjunction of all the per-index tolerance tests. -/
theorem sweepAux_ok (coeffs : List ℚ) (n : ℕ) (tol : ℚ) (roots : List Cq) :
    ∀ (k i : ℕ) (new : List Cq) (conv : Bool),
      sweepAux coeffs n tol roots k i = .ok (new, conv) →
      new.length = k ∧
      (∀ m, m < k → ∃ c, dkCorrection coeffs n roots (i + m) = .ok c ∧
        new.getD m 0 = roots.getD (i + m) 0 - c) ∧
      (conv = true ↔ ∀ m, m < k → ∀ c, dkCorrection coeffs n roots (i + m) = .ok c →
        absGt c tol = false) := by
  intro k
  induction k with
  | zero =>
    intro i new conv h
    simp only [sweepAux] at h
    injection h with h
    injection h with h1 h2
    subst h1; subst h2
    refine ⟨rfl, ?_, ?_⟩
    · intro m hm; omega
    · simp only [true_iff]
      intro m hm; omega
  | succ k ih =>
    intro i new conv h
    simp only [sweepAux] at h
    cases hc : dkCorrection coeffs n roots i with
    | error e => rw [hc] at h; exact absurd h (by simp)
    | ok c =>
      rw [hc] at h
      cases hrest : sweepAux coeffs n tol roots k (i + 1) with
      | error e => rw [hrest] at h; exact absurd h (by simp)
      | ok rest =>
        rw [hrest] at h
        injection h with h
        injection h with h1 h2
        obtain ⟨hlen, hval, hconv⟩ := ih (i + 1) rest.1 rest.2 (by rw [hrest])
        subst h1; subst h2
        refine ⟨by simp [hlen], ?_, ?_⟩
        · intro m hm
          cases m with
          | zero => exact ⟨c, by simpa using hc, by simp⟩
          | succ m =>
            obtain ⟨c', hc', hv'⟩ := hval m (by omega)
            refine ⟨c', ?_, ?_⟩
            · have : i + (m + 1) = i + 1 + m := by omega
              rw [this]; exact hc'
            · have : i + (m + 1) = i + 1 + m := by omega
              rw [this]; simpa using hv'
        · constructor
          · intro hb m hm c' hc'
            have hsplit : (!absGt c tol) = true ∧ rest.2 = true := by
              simpa [Bool.and_eq_true] using hb
            cases m with
            | zero =>
              have hcc : c = c' := by
                rw [show i + 0 = i by omega, hc] at hc'
                exact Except.ok.inj hc'
              subst hcc
              simpa using hsplit.1
            | succ m =>
              have : i + (m + 1) = i + 1 + m := by omega
              rw [this] at hc'
              exact (hconv.mp hsplit.2) m (by omega) c' hc'
          · intro hall
            have h0 : absGt c tol = false := by
              refine hall 0 (by omega) c ?_
              rw [show i + 0 = i by omega, hc]
            have hrest2 : rest.2 = true := by
              refine hconv.mpr ?_
              intro m hm c' hc'
              have : i + 1 + m = i + (m + 1) := by omega
              rw [this] at hc'
              exact hall (m + 1) (by omega) c' hc'
            simp [h0, hrest2]

theorem sweepAux_error (coeffs : List ℚ) (n : ℕ) (tol : ℚ) (roots : List Cq) :
    ∀ (k i : ℕ) (e : DKError),
      sweepAux coeffs n tol roots k i = .error e → e = .divisionByZero := by
  intro k
  induction k with
  | zero => intro i e h; simp [sweepAux] at h
  | succ k ih =>
    intro i e h
    simp only [sweepAux] at h
    cases hc : dkCorrection coeffs n roots i with
    | error e' =>
      rw [hc] at h
      injection h with h
      subst h
      exact dkCorrection_error hc
    | ok c =>
      rw [hc] at h
      cases hrest : sweepAux coeffs n tol roots k (i + 1) with
      | error e' =>
        rw [hrest] at h
        injection h with h
        subst h
        exact ih (i + 1) e' hrest
      | ok rest => rw [hrest] at h; exact absurd h (by simp)

theorem sweep_error {coeffs : List ℚ} {n : ℕ} {tol : ℚ} {roots : List Cq} {e : DKError}
    (h : sweep coeffs n tol roots = .error e) : e = .divisionByZero :=
  sweepAux_error coeffs n tol roots n 0 e h

theorem iterateDK_error (coeffs : List ℚ) (n : ℕ) (tol : ℚ) :
    ∀ (fuel : ℕ) (roots : List Cq) (e : DKError),
      iterateDK coeffs n tol fuel roots = .error e → e = .divisionByZero := by
  intro fuel
  induction fuel with
  | zero => intro roots e h; simp [iterateDK] at h
  | succ fuel ih =>
    intro roots e h
    simp only [iterateDK] at h
    cases hs : sweep coeffs n tol roots with
    | error e' =>
      rw [hs] at h
      injection h with h
      subst h
      exact sweep_error hs
    | ok r =>
      rw [hs] at h
      have h' : (if r.2 = true then Except.ok r.1
          else iterateDK coeffs n tol fuel r.1) = Except.error e := h
      by_cases hr : r.2 = true
      · rw [if_pos hr] at h'; exact absurd h' (by simp)
      · rw [if_neg hr] at h'; exact ih r.1 e h'

theorem initialRadius_error {coeffs : List ℚ} {e : DKError}
    (h : initialRadius coeffs = .error e) : e = .divisionByZero := by
  unfold initialRadius at h
  cases hq : qdiv? (maxAbsCoeff coeffs) |coeffs.getD 0 0| with
  | error e' =>
    rw [hq] at h
    injection h with h
    subst h
    exact qdiv?_error hq
  | ok q => rw [hq] at h; exact absurd h (by simp)

/-- On the general path (degree ≥ 2, leading coefficient passing the
tolerance check, initial radius computed), `durand_kerner` is exactly the
iteration of synchronous sweeps, with budget `max(max_iterations, dps*20)`,
started from the circle points `initialRoots`. -/
theorem durand_kerner_deg2 (mp : Mp) (coeffs : List ℚ) (maxIter : ℕ)
    (tolOpt : Option ℚ) (dps : ℕ) (r : ℚ)
    (hlen : 3 ≤ coeffs.length)
    (hlead : ¬(|coeffs.getD (coeffs.length - 1) 0| < tolOpt.getD (defaultTolerance dps)))
    (hr : initialRadius coeffs = .ok r) :
    durand_kerner mp coeffs maxIter tolOpt dps =
      iterateDK coeffs (coeffs.length - 1) (tolOpt.getD (defaultTolerance dps))
        (max maxIter (dps * 20)) (initialRoots mp r (coeffs.length - 1)) := by
  have h1 : ¬(coeffs.length ≤ 1) := by omega
  have h3 : ¬(coeffs.length = 1) := by omega
  have h4 : ¬(coeffs.length - 1 = 1) := by omega
  simp only [durand_kerner]
  rw [if_neg h1, if_neg hlead, if_neg h3, if_neg h4, hr]

theorem mapExcept_ok_length {α β : Type} (f : α → Except DKError β) :
    ∀ (l : List α) (l' : List β), mapExcept f l = .ok l' → l'.length = l.length := by
  intro l
  induction l with
  | nil =>
    intro l' h
    simp only [mapExcept] at h
    injection h with h
    subst h; rfl
  | cons a as ih =>
    intro l' h
    simp only [mapExcept] at h
    cases hfa : f a with
    | error e => rw [hfa] at h; exact absurd h (by simp)
    | ok b =>
      rw [hfa] at h
      cases hrest : mapExcept f as with
      | error e => rw [hrest] at h; exact absurd h (by simp)
      | ok bs =>
        rw [hrest] at h
        injection h with h
        subst h
        simp [ih bs hrest]

theorem getD_map_range {α : Type} (f : ℕ → α) (d : α) (n k : ℕ) (hk : k < n) :
    ((List.range n).map f).getD k d = f k := by
  rw [List.getD_eq_getElem?_getD, List.getElem?_map, List.getElem?_range hk]
  rfl

/-! ### Concrete mpmath stand-ins used by witnesses and counterexamples -/

def mpZero : Mp := ⟨fun _ => 0, fun _ => 0, fun _ => 0, 0⟩

/-- A context under which the 3-tap impulse response is
`[5e-46, 1 - 1e-45, 5e-46]`: the trimmed polynomial passes the trimming
guard but its leading coefficient fails the root iterator's tolerance
check, so `durand_kerner` raises. -/
def mpW : Mp := ⟨fun _ => -1, fun _ => 0, fun q => if q = 0 then 2 * 10 ^ 45 - 2 else 1, 0⟩

def mpOne : Mp := ⟨fun _ => -1, fun _ => 0, fun _ => 1, 0⟩

/-- A context under which the 3-tap impulse response is `[2/9, 5/9, 2/9]`
(the polynomial `(2/9)(x + 1/2)(x + 2)`) and the two initial estimates land
exactly on the roots `-1/2` and `-2`, so the iteration converges in one
sweep. -/
def mpConv : Mp :=
  ⟨fun q => if q = 0 then -1/5 else -4/5, fun _ => 0, fun q => if q = 0 then 5/2 else 1, 1⟩

/-- Follows the spec's words (section 4.2 step 1), for comparison with
`initialRadius` from the code: initial circle radius
`max(1, max |coefficient| / |leading coefficient|)`, the leading coefficient
being the last entry of the ascending-order list. -/
def initialRadiusSpec (coeffs : List ℚ) : ℚ :=
  max 1 (maxAbsCoeff coeffs / |coeffs.getLastD 0|)

/-! ### Claim theorems -/

/-- C1: for a degree-`n ≥ 2` coefficient vector, one iteration of the root
iterator is one synchronous sweep: every successful sweep sends the `i`-th
estimate `x_i` to `x_i − P(x_i) / (a_n · Π_{j≠i}(x_i − x_j))`, where every
`x_j` on the right is an estimate from the start of the sweep (the list
`roots`, never the partially built `new`), and
`P(x) = Σ_j coeffs[j] · x^j`. -/
theorem c1_sweep_formula (coeffs : List ℚ) (n : ℕ) (tol : ℚ) (roots new : List Cq)
    (conv : Bool) (i : ℕ)
    (hcoeffs : coeffs.length = n + 1) (_hdeg : 2 ≤ n) (_hroots : roots.length = n)
    (hsweep : sweep coeffs n tol roots = .ok (new, conv)) (hi : i < n) :
    new.getD i 0 =
      roots.getD i 0 -
        (∑ j ∈ Finset.range (n + 1), Cq.ofQ (coeffs.getD j 0) * roots.getD i 0 ^ j) /
          (Cq.ofQ (coeffs.getD n 0) *
            ∏ j ∈ (Finset.range n).erase i, (roots.getD i 0 - roots.getD j 0)) := by
  obtain ⟨hlen, hval, hconv⟩ := sweepAux_ok coeffs n tol roots n 0 new conv hsweep
  obtain ⟨c, hc, hv⟩ := hval i hi
  simp only [Nat.zero_add] at hc hv
  unfold dkCorrection at hc
  have hcval := Cq.div?_ok_val hc
  rw [hv, hcval, evaluate_polynomial_eq_sum, hcoeffs, dkDenominator_eq_prod]

theorem c1_sweep_formula_witness :
    ([⟨5/4, 0⟩, ⟨-5/4, 0⟩] : List Cq).getD 0 0 =
      ([⟨2, 0⟩, ⟨-2, 0⟩] : List Cq).getD 0 0 -
        (∑ j ∈ Finset.range (2 + 1),
            Cq.ofQ (([-1, 0, 1] : List ℚ).getD j 0) * ([⟨2, 0⟩, ⟨-2, 0⟩] : List Cq).getD 0 0 ^ j) /
          (Cq.ofQ (([-1, 0, 1] : List ℚ).getD 2 0) *
            ∏ j ∈ (Finset.range 2).erase 0,
              (([⟨2, 0⟩, ⟨-2, 0⟩] : List Cq).getD 0 0 - ([⟨2, 0⟩, ⟨-2, 0⟩] : List Cq).getD j 0)) :=
  c1_sweep_formula [-1, 0, 1] 2 (1/1000) [⟨2, 0⟩, ⟨-2, 0⟩] [⟨5/4, 0⟩, ⟨-5/4, 0⟩] false 0
    (by norm_num) (by norm_num) (by norm_num)
    (by norm_num [sweep, sweepAux, dkCorrection, dkDenominator, evaluate_polynomial, Cq.div?,
      absGt, Cq.normSq, List.range_succ, Cq.ofQ, Cq.div_def, Cq.inv_def,
      Cq.mk_add, Cq.mk_sub, Cq.mk_mul, Cq.mk_neg, Cq.zero_def, Cq.one_def, Cq.mk.injEq])
    (by norm_num)

/-- C2 (counterexample): on the degree-0 coefficient vector `[5]`,
`find_roots` does not return an empty sequence — it raises the
invalid-polynomial `ValueError` (`durand_kerner.py` line 49 fires before
the dead `n == 0` branch at line 56). -/
theorem c2_counterexample :
    durand_kerner mpZero [5] 1000 none 50 ≠ .ok [] ∧
      durand_kerner mpZero [5] 1000 none 50 = .error .invalidDegree := by
  constructor
  · intro h
    simp [durand_kerner] at h
  · simp [durand_kerner]

/-- C2 (amended): for every coefficient vector of degree 0 (a single
coefficient), `find_roots` raises the invalid-polynomial error instead of
returning an empty sequence; the `n == 0` early-return branch of the source
is unreachable because the `n <= 0` guard raises first. -/
theorem c2_degree_zero_raises (mp : Mp) (c : ℚ) (max_iterations : ℕ)
    (tolerance : Option ℚ) (dps : ℕ) :
    durand_kerner mp [c] max_iterations tolerance dps = .error .invalidDegree := by
  simp [durand_kerner]

/-- C5: for a degree-1 coefficient vector `[a0, a1]` whose leading
coefficient `a1` is non-negligible (its magnitude at least the tolerance in
effect, hence in particular non-zero), `find_roots` returns exactly the one
closed-form root `-a0/a1` with zero imaginary part, for every
`max_iterations` and every such tolerance — no iteration is involved. -/
theorem c5_degree_one_closed_form (mp : Mp) (a0 a1 : ℚ) (max_iterations : ℕ)
    (tolerance : Option ℚ) (dps : ℕ)
    (hlead : ¬(|a1| < tolerance.getD (defaultTolerance dps))) (ha1 : a1 ≠ 0) :
    durand_kerner mp [a0, a1] max_iterations tolerance dps = .ok [⟨-a0 / a1, 0⟩] := by
  simp only [durand_kerner]
  norm_num [qdiv?, ha1]
  intro h
  exact absurd h hlead

theorem c5_degree_one_closed_form_witness :
    durand_kerner mpZero [1, 1] 7 (some (1/2)) 50 = .ok [⟨-1 / 1, 0⟩] :=
  c5_degree_one_closed_form mpZero 1 1 7 (some (1/2)) 50 (by norm_num) (by norm_num)

theorem qdiv?_ok_val {a b q : ℚ} (h : qdiv? a b = .ok q) : b ≠ 0 ∧ q = a / b := by
  by_cases hb : b = 0
  · simp [qdiv?, hb] at h
  · simp [qdiv?, hb] at h
    exact ⟨hb, h.symm⟩

/-- C3 (counterexample): for the degree-2 vector `[1, 0, 2]` (ascending
order, leading coefficient `2`), the code's initial radius is
`max(1, 2/|1|) = 2`, while the spec's formula
`max(1, max|c|/|leading|) = max(1, 2/|2|)` gives `1`: the code divides by
the first (constant-term) coefficient, not the leading one. -/
theorem c3_counterexample :
    initialRadius [1, 0, 2] = .ok 2 ∧ initialRadiusSpec [1, 0, 2] = 1 ∧ (2 : ℚ) ≠ 1 := by
  refine ⟨?_, ?_, by norm_num⟩
  · norm_num [initialRadius, maxAbsCoeff, qdiv?]
  · norm_num [initialRadiusSpec, maxAbsCoeff]

/-- C3 (amended): for every coefficient vector of degree ≥ 2 passing the
leading-coefficient check, the root iterator starts from `n` estimates placed
at angles `2πk/n` (k = 0..n-1) on a circle of radius
`R = max(1, max(|coefficient|) / |a_0|)`, where `a_0` is the first listed
(constant-term) coefficient — not the leading coefficient. -/
theorem c3_initial_placement (mp : Mp) (coeffs : List ℚ) (maxIter : ℕ)
    (tolOpt : Option ℚ) (dps : ℕ) (r : ℚ)
    (hlen : 3 ≤ coeffs.length)
    (hlead : ¬(|coeffs.getD (coeffs.length - 1) 0| < tolOpt.getD (defaultTolerance dps)))
    (hr : initialRadius coeffs = .ok r) :
    r = max 1 (maxAbsCoeff coeffs / |coeffs.getD 0 0|) ∧
    durand_kerner mp coeffs maxIter tolOpt dps =
      iterateDK coeffs (coeffs.length - 1) (tolOpt.getD (defaultTolerance dps))
        (max maxIter (dps * 20)) (initialRoots mp r (coeffs.length - 1)) ∧
    ∀ k, k < coeffs.length - 1 →
      (initialRoots mp r (coeffs.length - 1)).getD k 0 =
        ⟨r * mp.cos ((2 * mp.pi * (k : ℚ)) / ((coeffs.length - 1 : ℕ) : ℚ)),
         r * mp.sin ((2 * mp.pi * (k : ℚ)) / ((coeffs.length - 1 : ℕ) : ℚ))⟩ := by
  refine ⟨?_, durand_kerner_deg2 mp coeffs maxIter tolOpt dps r hlen hlead hr, ?_⟩
  · unfold initialRadius at hr
    cases hq : qdiv? (maxAbsCoeff coeffs) |coeffs.getD 0 0| with
    | error e => rw [hq] at hr; exact absurd hr (by simp)
    | ok q =>
      rw [hq] at hr
      have hrq : r = max 1 q := (Except.ok.inj hr).symm
      rw [hrq, (qdiv?_ok_val hq).2]
  · intro k hk
    unfold initialRoots
    exact getD_map_range _ 0 _ k hk

theorem c3_initial_placement_witness :
    (2 : ℚ) = max 1 (maxAbsCoeff [1, 0, 2] / |([1, 0, 2] : List ℚ).getD 0 0|) ∧
    durand_kerner mpZero [1, 0, 2] 1000 (some 1) 50 =
      iterateDK [1, 0, 2] (([1, 0, 2] : List ℚ).length - 1) ((some (1 : ℚ)).getD (defaultTolerance 50))
        (max 1000 (50 * 20)) (initialRoots mpZero 2 (([1, 0, 2] : List ℚ).length - 1)) ∧
    ∀ k, k < ([1, 0, 2] : List ℚ).length - 1 →
      (initialRoots mpZero 2 (([1, 0, 2] : List ℚ).length - 1)).getD k 0 =
        ⟨2 * mpZero.cos ((2 * mpZero.pi * (k : ℚ)) / ((([1, 0, 2] : List ℚ).length - 1 : ℕ) : ℚ)),
         2 * mpZero.sin ((2 * mpZero.pi * (k : ℚ)) / ((([1, 0, 2] : List ℚ).length - 1 : ℕ) : ℚ))⟩ :=
  c3_initial_placement mpZero [1, 0, 2] 1000 (some 1) 50 2 (by norm_num)
    (by norm_num) (by norm_num [initialRadius, maxAbsCoeff, qdiv?])

/-- C4: iteration control of the root iterator.  After a successful sweep:
it stops (returns the updated estimates) exactly when the sweep reported
convergence, and convergence holds exactly when every correction of that
sweep has magnitude at most the tolerance (`normSq ≤ tol²` is `|·| ≤ tol`
for `tol ≥ 0`); otherwise the updated estimates feed the next sweep with one
unit of budget consumed.  An exhausted budget returns the current estimates
normally (no error), and on the degree ≥ 2 path the budget is
`max(max_iterations, dps · 20)`. -/
theorem c4_iteration_control (mp : Mp) (coeffs : List ℚ) (maxIter : ℕ)
    (tolOpt : Option ℚ) (dps : ℕ) (tol : ℚ) (n fuel : ℕ) (roots new : List Cq) (conv : Bool)
    (htol : tol = tolOpt.getD (defaultTolerance dps))
    (htolpos : 0 ≤ tol)
    (hsweep : sweep coeffs n tol roots = .ok (new, conv)) :
    (conv = true → iterateDK coeffs n tol (fuel + 1) roots = .ok new) ∧
    (conv = false → iterateDK coeffs n tol (fuel + 1) roots = iterateDK coeffs n tol fuel new) ∧
    (conv = true ↔ ∀ i, i < n → Cq.normSq (roots.getD i 0 - new.getD i 0) ≤ tol * tol) ∧
    iterateDK coeffs n tol 0 roots = .ok roots ∧
    (3 ≤ coeffs.length → n = coeffs.length - 1 → ¬(|coeffs.getD n 0| < tol) →
      ∀ r, initialRadius coeffs = .ok r →
        durand_kerner mp coeffs maxIter tolOpt dps =
          iterateDK coeffs n tol (max maxIter (dps * 20)) (initialRoots mp r n)) := by
  have hstep : iterateDK coeffs n tol (fuel + 1) roots =
      (if conv = true then Except.ok new else iterateDK coeffs n tol fuel new) := by
    simp only [iterateDK, hsweep]
  obtain ⟨hlen, hval, hconv⟩ := sweepAux_ok coeffs n tol roots n 0 new conv hsweep
  refine ⟨?_, ?_, ?_, by simp [iterateDK], ?_⟩
  · intro hc; rw [hstep, if_pos hc]
  · intro hc; rw [hstep]; rw [hc]; simp
  · constructor
    · intro hc i hi
      obtain ⟨c, hcorr, hv⟩ := hval i hi
      simp only [Nat.zero_add] at hcorr hv
      have habs := (hconv.mp hc) i hi c (by simpa using hcorr)
      have hcr : roots.getD i 0 - new.getD i 0 = c := by
        rw [hv]; exact sub_sub_cancel _ _
      rw [hcr]
      unfold absGt at habs
      rw [if_neg (not_lt.mpr htolpos)] at habs
      simpa using habs
    · intro hall
      refine hconv.mpr ?_
      intro m hm c hcorr
      obtain ⟨c', hcorr', hv'⟩ := hval m hm
      simp only [Nat.zero_add] at hcorr' hv'
      have hcc : c' = c := by
        rw [show (0 : ℕ) + m = m by omega] at hcorr
        rw [hcorr] at hcorr'
        exact (Except.ok.inj hcorr').symm
      subst hcc
      have hcr : roots.getD m 0 - new.getD m 0 = c' := by
        rw [hv']; exact sub_sub_cancel _ _
      have := hall m hm
      rw [hcr] at this
      unfold absGt
      rw [if_neg (not_lt.mpr htolpos)]
      simpa using this
  · intro hlen3 hn hlead r hr
    subst hn htol
    exact durand_kerner_deg2 mp coeffs maxIter tolOpt dps r hlen3 hlead hr

theorem c4_iteration_control_witness :
    ((false = true → iterateDK [-1, 0, 1] 2 (1/1000) (5 + 1) [⟨2, 0⟩, ⟨-2, 0⟩] =
        .ok [⟨5/4, 0⟩, ⟨-5/4, 0⟩]) ∧
    (false = false → iterateDK [-1, 0, 1] 2 (1/1000) (5 + 1) [⟨2, 0⟩, ⟨-2, 0⟩] =
        iterateDK [-1, 0, 1] 2 (1/1000) 5 [⟨5/4, 0⟩, ⟨-5/4, 0⟩]) ∧
    (false = true ↔ ∀ i, i < 2 →
      Cq.normSq (([⟨2, 0⟩, ⟨-2, 0⟩] : List Cq).getD i 0 -
        ([⟨5/4, 0⟩, ⟨-5/4, 0⟩] : List Cq).getD i 0) ≤ (1/1000 : ℚ) * (1/1000)) ∧
    iterateDK [-1, 0, 1] 2 (1/1000) 0 [⟨2, 0⟩, ⟨-2, 0⟩] = .ok [⟨2, 0⟩, ⟨-2, 0⟩] ∧
    (3 ≤ ([-1, 0, 1] : List ℚ).length → 2 = ([-1, 0, 1] : List ℚ).length - 1 →
      ¬(|([-1, 0, 1] : List ℚ).getD 2 0| < (1/1000 : ℚ)) →
      ∀ r, initialRadius [-1, 0, 1] = .ok r →
        durand_kerner mpZero [-1, 0, 1] 1000 (some (1/1000)) 50 =
          iterateDK [-1, 0, 1] 2 (1/1000) (max 1000 (50 * 20)) (initialRoots mpZero r 2))) :=
  c4_iteration_control mpZero [-1, 0, 1] 1000 (some (1/1000)) 50 (1/1000) 2 5
    [⟨2, 0⟩, ⟨-2, 0⟩] [⟨5/4, 0⟩, ⟨-5/4, 0⟩] false rfl (by norm_num)
    (by norm_num [sweep, sweepAux, dkCorrection, dkDenominator, evaluate_polynomial, Cq.div?,
      absGt, Cq.normSq, List.range_succ, Cq.ofQ, Cq.div_def, Cq.inv_def,
      Cq.mk_add, Cq.mk_sub, Cq.mk_mul, Cq.mk_neg, Cq.zero_def, Cq.one_def, Cq.mk.injEq])

/-- C6: the root iterator raises an invalid-polynomial error (one of the two
`ValueError` raises) exactly when the coefficient vector has degree < 1
(length ≤ 1) or the leading coefficient's magnitude is below the tolerance
in effect.  In every other situation the only error it can produce is the
division-by-zero condition, never a silent junk result — the result type has
no NaN.  Since the error is the function's return value, it reaches every
direct caller. -/
theorem c6_invalid_polynomial_iff (mp : Mp) (coeffs : List ℚ) (maxIter : ℕ)
    (tolOpt : Option ℚ) (dps : ℕ) :
    (durand_kerner mp coeffs maxIter tolOpt dps = .error .invalidDegree ∨
     durand_kerner mp coeffs maxIter tolOpt dps = .error .zeroLeading) ↔
    (coeffs.length ≤ 1 ∨
     |coeffs.getD (coeffs.length - 1) 0| < tolOpt.getD (defaultTolerance dps)) := by
  constructor
  · intro h
    by_cases h1 : coeffs.length ≤ 1
    · exact Or.inl h1
    by_cases h2 : |coeffs.getD (coeffs.length - 1) 0| < tolOpt.getD (defaultTolerance dps)
    · exact Or.inr h2
    exfalso
    simp only [durand_kerner] at h
    rw [if_neg h1, if_neg h2] at h
    by_cases h3 : coeffs.length = 1
    · rw [if_pos h3] at h
      rcases h with h | h <;> simp at h
    rw [if_neg h3] at h
    by_cases h4 : coeffs.length - 1 = 1
    · rw [if_pos h4] at h
      cases hq : qdiv? (-coeffs.getD 0 0) (coeffs.getD 1 0) with
      | error e =>
        rw [hq] at h
        have he := qdiv?_error hq
        subst he
        rcases h with h | h <;> simp at h
      | ok root =>
        rw [hq] at h
        rcases h with h | h <;> simp at h
    · rw [if_neg h4] at h
      cases hr : initialRadius coeffs with
      | error e =>
        rw [hr] at h
        have he := initialRadius_error hr
        subst he
        rcases h with h | h <;> simp at h
      | ok r =>
        rw [hr] at h
        rcases h with h | h
        · have h' : iterateDK coeffs (coeffs.length - 1) (tolOpt.getD (defaultTolerance dps))
              (max maxIter (dps * 20)) (initialRoots mp r (coeffs.length - 1)) =
              .error .invalidDegree := h
          have := iterateDK_error _ _ _ _ _ _ h'
          simp at this
        · have h' : iterateDK coeffs (coeffs.length - 1) (tolOpt.getD (defaultTolerance dps))
              (max maxIter (dps * 20)) (initialRoots mp r (coeffs.length - 1)) =
              .error .zeroLeading := h
          have := iterateDK_error _ _ _ _ _ _ h'
          simp at this
  · intro h
    by_cases h1 : coeffs.length ≤ 1
    · left
      simp only [durand_kerner]
      rw [if_pos h1]
    · rcases h with h | h2
      · exact absurd h h1
      · right
        simp only [durand_kerner]
        rw [if_neg h1, if_pos h2]

/-- C7: relation between the Filter Zero Extractor's trimming tolerance
`10^(-dps+4)` and the root iterator's default tolerance `10^(-dps+5)`.
Multiplying the trimming tolerance by ten gives the iterator tolerance: the
trimming tolerance is one order of magnitude SMALLER (stricter), not ten
times larger as the claim (and the code's own comment at
`gaussian_filter.py` lines 101-102) states; at `dps = 50` the values are
`10^-46` versus `10^-45`. -/
theorem c7_trimming_tolerance_ratio :
    (∀ dps : ℕ, gaussian_filter_zero_tolerance dps * 10 = defaultTolerance dps ∧
      gaussian_filter_zero_tolerance dps < defaultTolerance dps) ∧
    gaussian_filter_zero_tolerance 50 = 1 / 10 ^ 46 ∧
    defaultTolerance 50 = 1 / 10 ^ 45 := by
  refine ⟨fun dps => ⟨?_, ?_⟩, by norm_num [gaussian_filter_zero_tolerance],
    by norm_num [defaultTolerance]⟩
  · unfold gaussian_filter_zero_tolerance defaultTolerance
    rw [← zpow_add_one₀ (by norm_num : (10 : ℚ) ≠ 0)]
    congr 1
    ring
  · have hpos : (0 : ℚ) < (10 : ℚ) ^ (-(dps : ℤ) + 4) := zpow_pos (by norm_num) _
    have hmul : gaussian_filter_zero_tolerance dps * 10 = defaultTolerance dps := by
      unfold gaussian_filter_zero_tolerance defaultTolerance
      rw [← zpow_add_one₀ (by norm_num : (10 : ℚ) ≠ 0)]
      congr 1
      ring
    unfold gaussian_filter_zero_tolerance at *
    linarith

/-- C8 (counterexample): the returned-root filter of
`calculate_gaussian_zeros` discards a root whose imaginary part equals the
classification tolerance exactly, although that imaginary part is strictly
positive — so "kept exactly when within tolerance of zero or strictly
positive" does not match the code, whose test is `imag > tolerance`. -/
theorem c8_counterexample :
    keepRoot (zeroClassifyTolerance 50) ⟨0, zeroClassifyTolerance 50⟩ = false ∧
      0 < (⟨0, zeroClassifyTolerance 50⟩ : Cq).im := by
  constructor
  · norm_num [keepRoot, zeroClassifyTolerance, abs_of_pos]
  · norm_num [zeroClassifyTolerance]

/-- C8 (amended): every zero returned by `calculate_gaussian_zeros`
survives the code's filter `|imag| < tol ∨ imag > tol` with
`tol = 10^(-dps+5)`; consequently its imaginary part exceeds `-tol`
(it can be a tolerance-small negative number, and a root with
`imag = tol` exactly is discarded, so "non-negative" and
"strictly positive" in the original claim are both off by the
tolerance band). -/
theorem c8_upper_half_filter (mp : Mp) (taps : ℤ) (sigma : ℚ) (dps : ℕ)
    (zs : List Cq) (z : Cq)
    (hok : calculate_gaussian_zeros mp taps sigma dps = .ok zs) (hz : z ∈ zs) :
    (|z.im| < zeroClassifyTolerance dps ∨ zeroClassifyTolerance dps < z.im) ∧
      -(zeroClassifyTolerance dps) < z.im := by
  have hkeep : keepRoot (zeroClassifyTolerance dps) z = true := by
    cases himp : calculate_gaussian_impulse_response mp sigma taps .hann dps with
    | error e =>
      rw [calculate_gaussian_zeros, himp] at hok
      exact absurd hok (by simp)
    | ok h =>
      rw [calculate_gaussian_zeros, himp] at hok
      have hzs : zs = gaussianZerosFromImpulse mp dps h := (Except.ok.inj hok).symm
      subst hzs
      unfold gaussianZerosFromImpulse at hz
      by_cases h1 : 1 < h.length
      · rw [if_pos h1] at hz
        by_cases h2 : 1 < (trimTrailing (gaussian_filter_zero_tolerance dps)
              (trimLeading (gaussian_filter_zero_tolerance dps) h)).length ∧
            gaussian_filter_zero_tolerance dps <
              |(trimTrailing (gaussian_filter_zero_tolerance dps)
                (trimLeading (gaussian_filter_zero_tolerance dps) h)).getD 0 0|
        · rw [if_pos h2] at hz
          cases hdk : durand_kerner mp
              (trimTrailing (gaussian_filter_zero_tolerance dps)
                (trimLeading (gaussian_filter_zero_tolerance dps) h)) 1000 none dps with
          | error e =>
            rw [hdk] at hz
            exact absurd hz (by simp)
          | ok roots =>
            rw [hdk] at hz
            have hz' : z ∈ roots.filter (keepRoot (zeroClassifyTolerance dps)) := hz
            exact (List.mem_filter.mp hz').2
        · rw [if_neg h2] at hz
          exact absurd hz (by simp)
      · rw [if_neg h1] at hz
        exact absurd hz (by simp)
  have hprop : |z.im| < zeroClassifyTolerance dps ∨ zeroClassifyTolerance dps < z.im := by
    have := hkeep
    unfold keepRoot at this
    simpa [Bool.or_eq_true, decide_eq_true_eq] using this
  have htolpos : 0 < zeroClassifyTolerance dps := zpow_pos (by norm_num) _
  refine ⟨hprop, ?_⟩
  rcases hprop with hsmall | hpos
  · exact (abs_lt.mp hsmall).1
  · linarith

theorem iterateDK_succ (coeffs : List ℚ) (n : ℕ) (tol : ℚ) (fuel : ℕ) (roots : List Cq) :
    iterateDK coeffs n tol (fuel + 1) roots =
      match sweep coeffs n tol roots with
      | .error e => .error e
      | .ok r => if r.2 then .ok r.1 else iterateDK coeffs n tol fuel r.1 := rfl

theorem iterateDK_converged (coeffs : List ℚ) (n : ℕ) (tol : ℚ) (fuel : ℕ)
    (roots new : List Cq) (hsw : sweep coeffs n tol roots = .ok (new, true)) :
    iterateDK coeffs n tol (fuel + 1) roots = .ok new := by
  rw [iterateDK_succ, hsw]
  rfl

/-- The durand_kerner-success path of `gaussianZerosFromImpulse`: when both
guards pass and the iterator returns roots, the result is those roots put
through the classification filter. -/
theorem gaussianZerosFromImpulse_ok (mp : Mp) (dps : ℕ) (h : List ℚ) (roots : List Cq)
    (h1 : 1 < h.length)
    (h2 : 1 < (trimTrailing (gaussian_filter_zero_tolerance dps)
          (trimLeading (gaussian_filter_zero_tolerance dps) h)).length ∧
        gaussian_filter_zero_tolerance dps <
          |(trimTrailing (gaussian_filter_zero_tolerance dps)
            (trimLeading (gaussian_filter_zero_tolerance dps) h)).getD 0 0|)
    (hdk : durand_kerner mp
        (trimTrailing (gaussian_filter_zero_tolerance dps)
          (trimLeading (gaussian_filter_zero_tolerance dps) h)) 1000 none dps = .ok roots) :
    gaussianZerosFromImpulse mp dps h =
      roots.filter (keepRoot (zeroClassifyTolerance dps)) := by
  unfold gaussianZerosFromImpulse
  rw [if_pos h1, if_pos h2, hdk]

theorem c8_upper_half_filter_witness :
    (|(⟨-1/2, 0⟩ : Cq).im| < zeroClassifyTolerance 50 ∨
      zeroClassifyTolerance 50 < (⟨-1/2, 0⟩ : Cq).im) ∧
      -(zeroClassifyTolerance 50) < (⟨-1/2, 0⟩ : Cq).im := by
  have himp : calculate_gaussian_impulse_response mpConv 1 3 .hann 50 = .ok [2/9, 5/9, 2/9] := by
    norm_num [calculate_gaussian_impulse_response, mapExcept, qdiv?, mpConv, List.range_succ]
  have hir : initialRadius [2/9, 5/9, 2/9] = .ok (5/2) := by
    norm_num [initialRadius, maxAbsCoeff, qdiv?, abs_of_pos, max_def]
  have hinit : initialRoots mpConv (5/2) 2 = [⟨-1/2, 0⟩, ⟨-2, 0⟩] := by
    norm_num [initialRoots, List.range_succ, mpConv]
  have hsw : ∀ t : ℚ, 0 ≤ t →
      sweep [2/9, 5/9, 2/9] 2 t [⟨-1/2, 0⟩, ⟨-2, 0⟩] = .ok ([⟨-1/2, 0⟩, ⟨-2, 0⟩], true) := by
    intro t ht
    have habs : absGt ⟨0, 0⟩ t = false := by
      unfold absGt
      rw [if_neg (not_lt.mpr ht)]
      simp only [Cq.normSq, decide_eq_false_iff_not, not_lt]
      nlinarith [mul_self_nonneg t]
    norm_num [sweep, sweepAux, dkCorrection, dkDenominator, evaluate_polynomial, Cq.div?,
      habs, Cq.normSq, List.range_succ, Cq.ofQ, Cq.div_def, Cq.inv_def,
      Cq.mk_add, Cq.mk_sub, Cq.mk_mul, Cq.mk_neg, Cq.zero_def, Cq.one_def, Cq.mk.injEq]
  have htolnn : (0 : ℚ) ≤ (none : Option ℚ).getD (defaultTolerance 50) :=
    le_of_lt (zpow_pos (by norm_num) _)
  have hdk : durand_kerner mpConv [2/9, 5/9, 2/9] 1000 none 50 = .ok [⟨-1/2, 0⟩, ⟨-2, 0⟩] := by
    have hunf := durand_kerner_deg2 mpConv [2/9, 5/9, 2/9] 1000 none 50 (5/2)
      (by norm_num) (by norm_num [defaultTolerance, abs_of_pos]) hir
    rw [hunf]
    have hlen3 : ([2/9, 5/9, 2/9] : List ℚ).length - 1 = 2 := by norm_num
    rw [hlen3, hinit, show (max 1000 (50 * 20) : ℕ) = 999 + 1 from rfl]
    exact iterateDK_converged _ _ _ _ _ _ (hsw _ htolnn)
  have htolval : gaussian_filter_zero_tolerance 50 = 1/10^46 := by
    norm_num [gaussian_filter_zero_tolerance]
  have htl : trimLeading (1/10^46) [2/9, 5/9, 2/9] = [2/9, 5/9, 2/9] := by
    rw [trimLeading]
    rw [if_neg (by norm_num [abs_of_pos])]
  have htt : trimTrailing (1/10^46) [2/9, 5/9, 2/9] = [2/9, 5/9, 2/9] := by
    rw [trimTrailing]
    rw [if_neg (by norm_num [List.getLastD, abs_of_pos])]
  have htrim : trimTrailing (gaussian_filter_zero_tolerance 50)
      (trimLeading (gaussian_filter_zero_tolerance 50) [2/9, 5/9, 2/9]) = [2/9, 5/9, 2/9] := by
    rw [htolval, htl, htt]
  have hpost : gaussianZerosFromImpulse mpConv 50 [2/9, 5/9, 2/9] =
      ([⟨-1/2, 0⟩, ⟨-2, 0⟩] : List Cq).filter (keepRoot (zeroClassifyTolerance 50)) := by
    apply gaussianZerosFromImpulse_ok
    · norm_num
    · rw [htrim, htolval]
      norm_num [abs_of_pos]
    · rw [htrim]; exact hdk
  have hfilter : ([⟨-1/2, 0⟩, ⟨-2, 0⟩] : List Cq).filter (keepRoot (zeroClassifyTolerance 50)) =
      [⟨-1/2, 0⟩, ⟨-2, 0⟩] := by
    have hk1 : keepRoot (zeroClassifyTolerance 50) ⟨-1/2, 0⟩ = true := by
      norm_num [keepRoot, zeroClassifyTolerance]
    have hk2 : keepRoot (zeroClassifyTolerance 50) ⟨-2, 0⟩ = true := by
      norm_num [keepRoot, zeroClassifyTolerance]
    simp [List.filter, hk1, hk2]
  have hgz0 : calculate_gaussian_zeros mpConv 3 1 50 =
      .ok (gaussianZerosFromImpulse mpConv 50 [2/9, 5/9, 2/9]) := by
    rw [calculate_gaussian_zeros, himp]
  have hgz : calculate_gaussian_zeros mpConv 3 1 50 = .ok [⟨-1/2, 0⟩, ⟨-2, 0⟩] := by
    rw [hgz0, hpost, hfilter]
  exact c8_upper_half_filter mpConv 3 1 50 [⟨-1/2, 0⟩, ⟨-2, 0⟩] ⟨-1/2, 0⟩ hgz
    (List.mem_cons_self _ _)

/-- C9: whenever the root iterator fails — with any error, division by zero
or an invalid-polynomial `ValueError` — on the trimmed coefficients that
`calculate_gaussian_zeros` hands it, the extractor catches the failure and
returns an empty zero list (after printing a stderr warning, an I/O effect
with no influence on the returned value); no iterator failure propagates
out of `calculate_gaussian_zeros`. -/
theorem c9_extractor_catches_iterator_failure (mp : Mp) (taps : ℤ) (sigma : ℚ) (dps : ℕ)
    (h : List ℚ) (e : DKError)
    (himp : calculate_gaussian_impulse_response mp sigma taps .hann dps = .ok h)
    (hdk : durand_kerner mp
        (trimTrailing (gaussian_filter_zero_tolerance dps)
          (trimLeading (gaussian_filter_zero_tolerance dps) h)) 1000 none dps = .error e) :
    calculate_gaussian_zeros mp taps sigma dps = .ok [] := by
  have hgz0 : calculate_gaussian_zeros mp taps sigma dps =
      .ok (gaussianZerosFromImpulse mp dps h) := by
    rw [calculate_gaussian_zeros, himp]
  rw [hgz0]
  have hpost : gaussianZerosFromImpulse mp dps h = [] := by
    unfold gaussianZerosFromImpulse
    by_cases h1 : 1 < h.length
    · rw [if_pos h1]
      by_cases h2 : 1 < (trimTrailing (gaussian_filter_zero_tolerance dps)
            (trimLeading (gaussian_filter_zero_tolerance dps) h)).length ∧
          gaussian_filter_zero_tolerance dps <
            |(trimTrailing (gaussian_filter_zero_tolerance dps)
              (trimLeading (gaussian_filter_zero_tolerance dps) h)).getD 0 0|
      · rw [if_pos h2, hdk]
      · rw [if_neg h2]
    · rw [if_neg h1]
  rw [hpost]

theorem c9_extractor_catches_iterator_failure_witness :
    calculate_gaussian_zeros mpW 3 1 50 = .ok [] := by
  have htolval : gaussian_filter_zero_tolerance 50 = 1/10^46 := by
    norm_num [gaussian_filter_zero_tolerance]
  have himp : calculate_gaussian_impulse_response mpW 1 3 .hann 50 =
      .ok [1/(2 * 10^45), (10^45 - 1)/10^45, 1/(2 * 10^45)] := by
    norm_num [calculate_gaussian_impulse_response, mapExcept, qdiv?, mpW, List.range_succ]
  have htl : trimLeading (1/10^46) [1/(2 * 10^45), (10^45 - 1)/10^45, 1/(2 * 10^45)] =
      [1/(2 * 10^45), (10^45 - 1)/10^45, 1/(2 * 10^45)] := by
    rw [trimLeading]
    rw [if_neg (by norm_num [abs_of_pos])]
  have htt : trimTrailing (1/10^46) [1/(2 * 10^45), (10^45 - 1)/10^45, 1/(2 * 10^45)] =
      [1/(2 * 10^45), (10^45 - 1)/10^45, 1/(2 * 10^45)] := by
    rw [trimTrailing]
    rw [if_neg (by norm_num [List.getLastD, abs_of_pos])]
  have hdk : durand_kerner mpW
      (trimTrailing (gaussian_filter_zero_tolerance 50)
        (trimLeading (gaussian_filter_zero_tolerance 50)
          [1/(2 * 10^45), (10^45 - 1)/10^45, 1/(2 * 10^45)])) 1000 none 50 =
      .error .zeroLeading := by
    rw [htolval, htl, htt]
    norm_num [durand_kerner, defaultTolerance, abs_of_pos]
  exact c9_extractor_catches_iterator_failure mpW 3 1 50
    [1/(2 * 10^45), (10^45 - 1)/10^45, 1/(2 * 10^45)] .zeroLeading himp hdk

/-- C10: `calculate_gaussian_impulse_response` silently clamps the tap count
to `[3, 31]`: any returned impulse response has the odd length
`2 * (min(max(3, taps), 31) // 2) + 1`, for every `taps` (larger than 31,
smaller than 3, even, or negative alike); and `calculate_gaussian_zeros` is
exactly the post-processing of that same clamped impulse response, so it
inherits the clamping. -/
theorem c10_taps_clamped (mp : Mp) (sigma : ℚ) (taps : ℤ) (wf : WindowKind)
    (dps : ℕ) (h : List ℚ)
    (himp : calculate_gaussian_impulse_response mp sigma taps wf dps = .ok h) :
    h.length = 2 * ((min (max 3 taps) 31).toNat / 2) + 1 ∧
    Odd h.length ∧
    calculate_gaussian_zeros mp taps sigma dps =
      Except.map (gaussianZerosFromImpulse mp dps)
        (calculate_gaussian_impulse_response mp sigma taps .hann dps) := by
  have hlen : h.length = 2 * ((min (max 3 taps) 31).toNat / 2) + 1 := by
    simp only [calculate_gaussian_impulse_response] at himp
    split at himp
    · exact absurd himp (by simp)
    · rename_i base hbase
      have hn := mapExcept_ok_length _ _ _ himp
      have hb := mapExcept_ok_length _ _ _ hbase
      simp only [List.length_map, List.length_range] at hb
      cases wf with
      | noWindow =>
        simp only [List.length_map, List.length_range] at hn
        rw [hn, hb]
        omega
      | hann =>
        simp only [List.length_map, List.length_zip, List.length_range, hb] at hn
        rw [hn]
        omega
  refine ⟨hlen, by rw [hlen]; exact ⟨(min (max 3 taps) 31).toNat / 2, by ring⟩, ?_⟩
  cases hi : calculate_gaussian_impulse_response mp sigma taps .hann dps with
  | error e => rw [calculate_gaussian_zeros, hi]; rfl
  | ok l => rw [calculate_gaussian_zeros, hi]; rfl

theorem c10_taps_clamped_witness :
    ([1/3, 1/3, 1/3] : List ℚ).length = 2 * ((min (max 3 (0 : ℤ)) 31).toNat / 2) + 1 ∧
    Odd ([1/3, 1/3, 1/3] : List ℚ).length ∧
    calculate_gaussian_zeros mpOne 0 1 50 =
      Except.map (gaussianZerosFromImpulse mpOne 50)
        (calculate_gaussian_impulse_response mpOne 1 0 .hann 50) :=
  c10_taps_clamped mpOne 1 0 .hann 50 [1/3, 1/3, 1/3]
    (by norm_num [calculate_gaussian_impulse_response, mapExcept, qdiv?, mpOne, List.range_succ])
